import Mathlib

/-!
Shallow embedding of the delta-radiomics extraction pipeline in
`src/ali/data_io.py` (functions `calculate_delta_radiomics` and
`_find_patient_ab_files`).

Python strings are modelled as `List Char` (Python compares and sorts
strings lexicographically by code point, which coincides with the
lexicographic `LinearOrder` on `List Char`).  Spreadsheet cells as loaded
by `pandas.read_excel` are modelled by `Cell` (a float, a text, or NaN);
float values are modelled by `ℚ`.  Filesystem effects (directory
listings, spreadsheet loads) are modelled by explicit per-patient data
(`PatientFolder`), with possible faults made explicit.
-/

/-- Column offset of the feature block: `feature_start_col = 23` in
`calculate_delta_radiomics`. -/
def featureStartCol : Nat := 23

/-- Characters of the label column name `"Segmentation"`. -/
def segmentationCol : List Char := ("Segmentation").data

/-- Characters of the fixed selection tag `"suv2.5"` (the argument of
`str.contains` in the source). -/
def suvTag : List Char := ("suv2.5").data

/-- Characters of the recognised spreadsheet extension `".xlsx"`. -/
def xlsxExt : List Char := (".xlsx").data

/-- Characters of the Time-A marker `"_A"`. -/
def markerA : List Char := ("_A").data

/-- Characters of the Time-B marker `"_B"`. -/
def markerB : List Char := ("_B").data

/-- Python substring containment `pat in s` (case-sensitive, literal). -/
def containsSub (s pat : List Char) : Bool :=
  match s with
  | [] => pat.isEmpty
  | c :: rest => pat.isPrefixOf (c :: rest) || containsSub rest pat

/-- Python `str.upper()`: the source only ever feeds ASCII marker
characters into the comparison, so ASCII upcasing (`Char.toUpper`)
is a faithful model. -/
def upperName (s : List Char) : List Char := s.map Char.toUpper

/-- Python `str.endswith(pat)`. -/
def endsWith (s pat : List Char) : Bool := decide (pat <:+ s)

/-- Model of `os.path.join(dir, name)` for a relative `name`: the join
inserts the path separator. -/
def joinPath (dir name : List Char) : List Char := dir ++ '/' :: name

/-- A spreadsheet cell as produced by `pandas.read_excel`: a numeric
value (floats modelled as rationals), a text value, or a missing value
(NaN). -/
inductive Cell where
  | num (q : ℚ)
  | text (s : List Char)
  | na
deriving DecidableEq

/-- Model of `Series.astype(str)` on one cell: NaN renders as the string
`"nan"`, text is unchanged, numbers render via `toString` (the exact
float rendering is irrelevant downstream: the rendering of a number
never contains the letters of the selection tag). -/
def cellToStr : Cell → List Char
  | .num q => (toString q).data
  | .text s => s
  | .na => ("nan").data

/-- Head test of the pattern `"suv2.5"` as `str.contains` interprets it:
`str.contains` defaults to `regex=True`, so the dot in the tag is the
regex wildcard, which with Python's default flags (no DOTALL) matches
any single character EXCEPT a newline. -/
def tagAtHead : List Char → Bool
  | 's' :: 'u' :: 'v' :: '2' :: c :: '5' :: _ => c != '\n'
  | _ => false

/-- Regex search of the pattern `"suv2.5"` anywhere in the string, as
performed by `str.contains("suv2.5")` (default `regex=True`). -/
def tagSearch : List Char → Bool
  | [] => false
  | c :: rest => tagAtHead (c :: rest) || tagSearch rest

/-- Model of the per-cell label match used to build `mask_A` / `mask_B`:
`astype(str).str.contains("suv2.5", na=False)`.  After `astype(str)` no
value is missing (NaN has become the text `"nan"`), so the `na=False`
fallback is never exercised and matching never raises. -/
def segMatchCell (c : Cell) : Bool := tagSearch (cellToStr c)

/-- Decimal digit test. -/
def isDigitCh (c : Char) : Bool := '0' ≤ c && c ≤ '9'

/-- Natural number denoted by a digit string (most significant first). -/
def natOfDigits (s : List Char) : Nat :=
  s.foldl (fun acc c => 10 * acc + (c.toNat - ('0').toNat)) 0

/-- Unsigned decimal parser: digits with an optional single decimal
point, at least one digit overall (accepting forms like "5", "5.",
".5", "5.25"). -/
def parseUnsigned (s : List Char) : Option ℚ :=
  let intPart := s.takeWhile (fun c => c ≠ '.')
  let rest := s.dropWhile (fun c => c ≠ '.')
  match rest with
  | [] =>
    if intPart.isEmpty = false && intPart.all isDigitCh then
      some ((natOfDigits intPart : ℚ))
    else none
  | _ :: frac =>
    if (intPart.isEmpty = false || frac.isEmpty = false)
        && intPart.all isDigitCh && frac.all isDigitCh then
      some ((natOfDigits intPart : ℚ)
        + (natOfDigits frac : ℚ) / ((10 : ℚ) ^ frac.length))
    else none

/-- Model of `pandas.to_numeric(errors="coerce")` on one cell: numerics
pass through, text is parsed as a signed decimal literal (non-numeric
text coerces to missing rather than raising), NaN stays missing.
Exotic numeric text forms (scientific notation, whitespace padding) are
not modelled; no claim exercises them. -/
def toNumericCell : Cell → Option ℚ
  | .num q => some q
  | .text s =>
    match s with
    | '-' :: rest => (parseUnsigned rest).map (fun q => -q)
    | '+' :: rest => parseUnsigned rest
    | _ => parseUnsigned s
  | .na => none

/-- Feature (column) names are strings. -/
abbrev Feature := List Char

/-- A numeric-coerced feature row (a pandas Series indexed by feature
name, entries possibly NaN). -/
abbrev NumRow := List (Feature × Option ℚ)

/-- A stored record: the result of `.dropna().to_dict()` on a numeric
row. -/
abbrev FeatRec := List (Feature × ℚ)

/-- An in-memory spreadsheet table as loaded by `pandas.read_excel`:
a header row of column names and a list of data rows (each row listing
its cells in column order). -/
structure MeasTable where
  columns : List Feature
  rows : List (List Cell)
deriving DecidableEq

/-- Position of a named column, if present: models both the membership
test `name in df.columns` and the column access `df[name]` (which uses
the first column of that name). -/
def colIndex (t : MeasTable) (c : Feature) : Option Nat :=
  t.columns.findIdx? (fun d => d == c)

/-- Whether the row at hand satisfies the selection mask, given the
label column lives at index `i`. -/
def rowMatches (i : Nat) (r : List Cell) : Bool :=
  segMatchCell (r.getD i Cell.na)

/-- The feature block of a selected row: `iloc[0, feature_start_col:]`,
a Series indexed by the column names from the fixed offset on. -/
def featBlock (t : MeasTable) (r : List Cell) : List (Feature × Cell) :=
  (t.columns.drop featureStartCol).zip (r.drop featureStartCol)

/-- Numeric coercion of a whole feature row:
`pd.to_numeric(row, errors="coerce")`. -/
def numericRow (r : List (Feature × Cell)) : NumRow :=
  r.map (fun p => (p.1, toNumericCell p.2))

/-- Value of a Series at an index label, if the label is present
(first occurrence, mirroring pandas lookup). -/
def lookupVal (r : NumRow) (f : Feature) : Option (Option ℚ) :=
  (r.find? (fun p => p.1 == f)).map (fun p => p.2)

/-- Index-aligned Series subtraction `numeric_B - numeric_A`: the result
is indexed by the union of the two feature-name sets (A's names first,
then B's new names, mirroring pandas alignment); a feature missing on
either side, or NaN on either side, yields a NaN delta. -/
def seriesSub (b a : NumRow) : NumRow :=
  let aKeys := a.map (fun p => p.1)
  let keys := aKeys ++ (b.map (fun p => p.1)).filter (fun k => !(aKeys.contains k))
  keys.map (fun k =>
    (k, match lookupVal b k, lookupVal a k with
        | some (some x), some (some y) => some (x - y)
        | _, _ => none))

/-- Model of `.dropna().to_dict()`: keep exactly the non-missing
entries. -/
def dropnaRow (r : NumRow) : FeatRec :=
  r.filterMap (fun p => (p.2).map (fun q => (p.1, q)))

/-- Body of the per-patient try block after both files loaded
(lines 72-96 of `data_io.py`): check the label column in both tables,
build the masks, bail out if either mask is empty, select the first
matching row of each table, coerce, subtract, and drop NaNs. -/
def tryExtract (dfA dfB : MeasTable) : Option (FeatRec × FeatRec × FeatRec) :=
  match colIndex dfA segmentationCol, colIndex dfB segmentationCol with
  | some iA, some iB =>
    if !(dfA.rows.any (rowMatches iA)) || !(dfB.rows.any (rowMatches iB)) then
      none
    else
      match dfA.rows.find? (rowMatches iA), dfB.rows.find? (rowMatches iB) with
      | some rA, some rB =>
        let numericA := numericRow (featBlock dfA rA)
        let numericB := numericRow (featBlock dfB rB)
        some (dropnaRow (seriesSub numericB numericA),
              dropnaRow numericA, dropnaRow numericB)
      | _, _ => none
  | _, _ => none

/-- One step of the candidate-collecting loop of `_find_patient_ab_files`
(lines 128-138): skip entries whose full path does not end in `".xlsx"`;
otherwise classify by the upper-cased file NAME: `"_A"` containment
first, `elif` `"_B"` containment, else ignore. -/
def scanEntry (patientPath : List Char) (acc : List (List Char) × List (List Char))
    (filename : List Char) : List (List Char) × List (List Char) :=
  let fullPath := joinPath patientPath filename
  let upper := upperName filename
  if endsWith fullPath xlsxExt = false then acc
  else if containsSub upper markerA then (acc.1 ++ [fullPath], acc.2)
  else if containsSub upper markerB then (acc.1, acc.2 ++ [fullPath])
  else acc

/-- The `a_candidates` / `b_candidates` lists built by
`_find_patient_ab_files` from a directory listing. -/
def abCandidates (patientPath : List Char) (listing : List (List Char)) :
    List (List Char) × List (List Char) :=
  listing.foldl (scanEntry patientPath) ([], [])

/-- Model of `sorted(cands)[0] if cands else None`
(lines 141-142). -/
def pickSorted (cands : List (List Char)) : Option (List Char) :=
  if cands.isEmpty then none
  else (List.insertionSort (fun x y => x ≤ y) cands).head?

/-- Model of `_find_patient_ab_files(patient_path)`: scan the patient
directory listing, then pick the lexicographically first candidate for
each slot. -/
def findPatientABFiles (patientPath : List Char) (listing : List (List Char)) :
    Option (List Char) × Option (List Char) :=
  let cands := abCandidates patientPath listing
  (pickSorted cands.1, pickSorted cands.2)

/-- Result of one `pd.read_excel` call: a loaded table, or a raised
exception (corrupt file, I/O error, ...). -/
inductive ReadResult where
  | tbl (t : MeasTable)
  | err
deriving DecidableEq

/-- The unhandled exceptions the embedding can observe escaping
`calculate_delta_radiomics`: a fault raised by `os.listdir` inside
`_find_patient_ab_files`, which is called OUTSIDE the per-patient
try block. -/
inductive Fault where
  | listFault (patient : List Char)
deriving DecidableEq

/-- One entry of the root directory, together with the filesystem
behaviour the run can observe about it: its name, whether it is a
directory, whether listing it succeeds (an unreadable directory makes
`os.listdir` raise), its file names when listing succeeds, and the
outcome of loading each contained file (keyed by full path). -/
structure PatientFolder where
  name : List Char
  isDir : Bool
  listingOk : Bool
  listing : List (List Char)
  loads : List (List Char × ReadResult)
deriving DecidableEq

/-- Outcome of `pd.read_excel(path)` inside one patient folder; a path
with no recorded content raises. -/
def readFile (p : PatientFolder) (path : List Char) : ReadResult :=
  match p.loads.find? (fun e => e.1 == path) with
  | some e => e.2
  | none => .err

/-- The warning text emitted for an A-without-B patient (lines 53-57):
`"Patient {name} has Time A file but missing Time B file. Skipping."`. -/
def warnMsg (name : List Char) : List Char :=
  ("Patient ").data ++ name ++ (" has Time A file but missing Time B file. Skipping.").data

/-- Per-patient contribution on success: patient name with its delta,
A and B records. -/
abbrev Contribution := List Char × FeatRec × FeatRec × FeatRec

/-- One iteration of the patient loop of `calculate_delta_radiomics`
(lines 43-100): the `isdir` guard, the file location (whose fault is
NOT caught), the warn-and-skip / silent-skip decisions, and the guarded
try block around loading and extraction.  Returns the warnings emitted
and the optional table contribution. -/
def processOne (rootPath : List Char) (p : PatientFolder) :
    Except Fault (List (List Char) × Option Contribution) :=
  if p.isDir = false then .ok ([], none)
  else if p.listingOk = false then .error (.listFault p.name)
  else
    match findPatientABFiles (joinPath rootPath p.name) p.listing with
    | (some _, none) => .ok ([warnMsg p.name], none)
    | (none, some _) => .ok ([], none)
    | (none, none) => .ok ([], none)
    | (some pa, some pb) =>
      match readFile p pa, readFile p pb with
      | .tbl dfA, .tbl dfB =>
        match tryExtract dfA dfB with
        | some (d, a, b) => .ok ([], some (p.name, d, a, b))
        | none => .ok ([], none)
      | _, _ => .ok ([], none)

/-- The accumulated run state: emitted warnings and the three
insertion-ordered mappings (patient → record). -/
structure RunOutput where
  warns : List (List Char)
  delta : List (List Char × FeatRec)
  aTab : List (List Char × FeatRec)
  bTab : List (List Char × FeatRec)
deriving DecidableEq

/-- Python dict assignment `m[k] = v`: overwrite in place when the key
exists, else append (insertion order preserved). -/
def dictInsert (m : List (List Char × FeatRec)) (k : List Char) (v : FeatRec) :
    List (List Char × FeatRec) :=
  if m.any (fun e => e.1 == k) then
    m.map (fun e => if e.1 == k then (k, v) else e)
  else m ++ [(k, v)]

/-- Accumulation step of the patient loop: extend the warning log and,
on a successful extraction, insert the three records under the patient
key. -/
def applyStep (acc : RunOutput) (ws : List (List Char)) (contrib : Option Contribution) :
    RunOutput :=
  match contrib with
  | none => { acc with warns := acc.warns ++ ws }
  | some (n, d, a, b) =>
    { warns := acc.warns ++ ws,
      delta := dictInsert acc.delta n d,
      aTab := dictInsert acc.aTab n a,
      bTab := dictInsert acc.bTab n b }

/-- The patient loop: process the (already sorted) entries in order,
accumulating warnings and the three mappings; an uncaught fault aborts
the whole run. -/
def runCohort (rootPath : List Char) : List PatientFolder → RunOutput → Except Fault RunOutput
  | [], acc => .ok acc
  | p :: rest, acc =>
    match processOne rootPath p with
    | .error f => .error f
    | .ok (ws, contrib) => runCohort rootPath rest (applyStep acc ws contrib)

deriving instance DecidableEq for Except

/-- Model of `sorted(os.listdir(data_folder_path))`: the root entries
are visited in lexicographic name order. -/
def sortEntries (entries : List PatientFolder) : List PatientFolder :=
  List.insertionSort (fun p q => p.name ≤ q.name) entries

/-- Model of `calculate_delta_radiomics(data_folder_path)`: iterate the
sorted root entries and build the three tables.  The row keys of the
returned DataFrames (`from_dict(..., orient="index")`) are exactly the
keys of the accumulated mappings, in insertion order. -/
def calculate_delta_radiomics (rootPath : List Char) (entries : List PatientFolder) :
    Except Fault RunOutput :=
  runCohort rootPath (sortEntries entries) ⟨[], [], [], []⟩

/-- The conditions the try block checks before producing records: both
tables contain the label column (`"Segmentation" in df.columns`) and
both selection masks are non-empty (`mask.any()`). -/
def extractConds (dfA dfB : MeasTable) : Prop :=
  (∃ iA, colIndex dfA segmentationCol = some iA ∧ dfA.rows.any (rowMatches iA) = true) ∧
  (∃ iB, colIndex dfB segmentationCol = some iB ∧ dfB.rows.any (rowMatches iB) = true)

/-- Successful extraction of one patient folder: it is a readable
directory, the locator resolves both a Time-A and a Time-B file, both
load as tables, and both tables pass the label-column and tag-match
checks. -/
def extractOk (root : List Char) (p : PatientFolder) : Prop :=
  p.isDir = true ∧ p.listingOk = true ∧
  ∃ pa pb dfA dfB,
    findPatientABFiles (joinPath root p.name) p.listing = (some pa, some pb) ∧
    readFile p pa = .tbl dfA ∧ readFile p pb = .tbl dfB ∧
    extractConds dfA dfB

/-- Root path used by the concrete test cohorts below. -/
def fxRoot : List Char := ("data").data

/-- Column header shared by the concrete test tables: the label column
first, 22 metadata columns, then the feature block at offset 23. -/
def tCols : List Feature :=
  segmentationCol :: (List.replicate 22 (['m'])) ++ [("FeatA").data, ("FeatB").data]

/-- Time-A row of patient P001: tagged label, FeatA = 1.0,
FeatB = "n/a". -/
def tRowA : List Cell :=
  Cell.text (("suv2.5").data) :: (List.replicate 22 Cell.na)
    ++ [Cell.num 1, Cell.text (("n/a").data)]

/-- Time-B row of patient P001: tagged label, FeatA = 3.0,
FeatB = 5.0. -/
def tRowB : List Cell :=
  Cell.text (("lesion suv2.5").data) :: (List.replicate 22 Cell.na)
    ++ [Cell.num 3, Cell.num 5]

/-- Time-A table of patient P001. -/
def tA : MeasTable := ⟨tCols, [tRowA]⟩

/-- Time-B table of patient P001. -/
def tB : MeasTable := ⟨tCols, [tRowB]⟩

/-- Patient P001 of the worked example: both files present and
loadable. -/
def p001 : PatientFolder :=
  { name := ("P001").data, isDir := true, listingOk := true,
    listing := [("P001_A.xlsx").data, ("P001_B.xlsx").data],
    loads := [(("data/P001/P001_A.xlsx").data, .tbl tA),
              (("data/P001/P001_B.xlsx").data, .tbl tB)] }

/-- Patient P002: only a Time-A file present. -/
def p002 : PatientFolder :=
  { name := ("P002").data, isDir := true, listingOk := true,
    listing := [("P002_A.xlsx").data], loads := [] }

/-- Row whose feature cells are all non-numeric text. -/
def tRowNA : List Cell :=
  Cell.text (("suv2.5").data) :: (List.replicate 22 Cell.na)
    ++ [Cell.text (("n/a").data), Cell.text (("n/a").data)]

/-- Table whose only row matches the tag but has no numeric feature. -/
def tNA : MeasTable := ⟨tCols, [tRowNA]⟩

/-- Patient P003: both files load and the tag matches, but no feature
value survives numeric coercion on either side. -/
def p003 : PatientFolder :=
  { name := ("P003").data, isDir := true, listingOk := true,
    listing := [("P003_A.xlsx").data, ("P003_B.xlsx").data],
    loads := [(("data/P003/P003_A.xlsx").data, .tbl tNA),
              (("data/P003/P003_B.xlsx").data, .tbl tNA)] }

/-- Patient P000: a directory whose listing raises (for instance an
unreadable directory), making `_find_patient_ab_files` fault. -/
def pBad : PatientFolder :=
  { name := ("P000").data, isDir := true, listingOk := false,
    listing := [], loads := [] }

/-- Patient P00C: both files are located but every load raises (for
instance two corrupt spreadsheets). -/
def pCorrupt : PatientFolder :=
  { name := ("P00C").data, isDir := true, listingOk := true,
    listing := [("P00C_A.xlsx").data, ("P00C_B.xlsx").data], loads := [] }

/-- Patient P00D: both files are located, the Time-A file loads fine,
but loading the Time-B file raises (a corrupt B spreadsheet). -/
def pCorruptB : PatientFolder :=
  { name := ("P00D").data, isDir := true, listingOk := true,
    listing := [("P00D_A.xlsx").data, ("P00D_B.xlsx").data],
    loads := [(("data/P00D/P00D_A.xlsx").data, .tbl tNA)] }

/-- Table with several tag-matching rows, used to exercise the
first-match selection: row 0 does not match, rows 1 and 2 both match
with different feature values. -/
def tMulti : MeasTable :=
  ⟨tCols,
   [Cell.text (("other").data) :: (List.replicate 22 Cell.na) ++ [Cell.num 7, Cell.num 8],
    Cell.text (("suv2.5").data) :: (List.replicate 22 Cell.na) ++ [Cell.num 1, Cell.num 2],
    Cell.text (("suv2.5 later").data) :: (List.replicate 22 Cell.na) ++ [Cell.num 3, Cell.num 4]]⟩

/-- Claim-side Time-A eligibility test on the entry NAME: the name ends
with the recognised extension and its upper-cased form contains the
A marker. -/
def eligNameA (n : List Char) : Bool :=
  endsWith n xlsxExt && containsSub (upperName n) markerA

/-- Claim-side Time-B eligibility test on the entry NAME: extension
suffix, no A marker (the branches are mutually exclusive), and the
B marker present in the upper-cased name. -/
def eligNameB (n : List Char) : Bool :=
  endsWith n xlsxExt && !(containsSub (upperName n) markerA)
    && containsSub (upperName n) markerB

theorem endsWith_joinPath (d n : List Char) :
    endsWith (joinPath d n) xlsxExt = endsWith n xlsxExt := by
  unfold endsWith joinPath
  rw [decide_eq_decide]
  have hslash : ('/' : Char) ∉ xlsxExt := by decide
  induction d with
  | nil =>
    rw [List.nil_append, List.suffix_cons_iff]
    constructor
    · rintro (h | h)
      · exact absurd (h ▸ List.mem_cons_self '/' n) hslash
      · exact h
    · exact fun h => Or.inr h
  | cons c d ih =>
    rw [List.cons_append, List.suffix_cons_iff]
    constructor
    · rintro (h | h)
      · refine absurd (h ▸ ?_) hslash
        exact List.mem_cons_of_mem c (List.mem_append_right d (List.mem_cons_self '/' n))
      · exact ih.mp h
    · exact fun h => Or.inr (ih.mpr h)

theorem abCandidates_loop (path : List Char) (l : List (List Char))
    (acc : List (List Char) × List (List Char)) :
    l.foldl (scanEntry path) acc
      = (acc.1 ++ (l.filter eligNameA).map (joinPath path),
         acc.2 ++ (l.filter eligNameB).map (joinPath path)) := by
  induction l generalizing acc with
  | nil => simp
  | cons n l ih =>
    rw [List.foldl_cons, ih]
    have hext := endsWith_joinPath path n
    by_cases h1 : endsWith n xlsxExt = true
    · by_cases h2 : containsSub (upperName n) markerA = true
      · simp [scanEntry, eligNameA, eligNameB, hext, h1, h2]
      · by_cases h3 : containsSub (upperName n) markerB = true
        · simp [scanEntry, eligNameA, eligNameB, hext, h1, h2, h3]
        · simp [scanEntry, eligNameA, eligNameB, hext, h1, h2, h3]
    · simp [scanEntry, eligNameA, eligNameB, hext, h1]

theorem abCandidates_eq_filter (path : List Char) (l : List (List Char)) :
    abCandidates path l
      = ((l.filter eligNameA).map (joinPath path),
         (l.filter eligNameB).map (joinPath path)) := by
  unfold abCandidates
  rw [abCandidates_loop]
  simp

theorem pickSorted_eq_none_iff (cands : List (List Char)) :
    pickSorted cands = none ↔ cands = [] := by
  unfold pickSorted
  by_cases h : cands.isEmpty
  · simp [h, List.isEmpty_iff.mp h]
  · have hne : cands ≠ [] := fun hc => h (by simp [hc])
    simp only [h, if_false, Bool.false_eq_true]
    rw [List.head?_eq_none_iff]
    constructor
    · intro hs
      have h0 := List.perm_insertionSort (fun a b : List Char => a ≤ b) cands
      rw [hs] at h0
      exact h0.symm.eq_nil
    · exact fun hc => absurd hc hne

theorem pickSorted_eq_some_iff (cands : List (List Char)) (x : List Char) :
    pickSorted cands = some x ↔ x ∈ cands ∧ ∀ y ∈ cands, x ≤ y := by
  unfold pickSorted
  by_cases h : cands.isEmpty
  · simp [h, List.isEmpty_iff.mp h]
  · simp only [h, if_false, Bool.false_eq_true]
    have hperm := List.perm_insertionSort (fun a b : List Char => a ≤ b) cands
    have hsorted := List.sorted_insertionSort (fun a b : List Char => a ≤ b) cands
    cases hs : List.insertionSort (fun a b : List Char => a ≤ b) cands with
    | nil =>
      rw [hs] at hperm
      exact absurd hperm.symm.eq_nil (fun hc => h (by simp [hc]))
    | cons z zs =>
      rw [hs] at hperm hsorted
      simp only [List.head?_cons, Option.some.injEq]
      constructor
      · rintro rfl
        refine ⟨hperm.mem_iff.mp (List.mem_cons_self z zs), ?_⟩
        intro y hy
        rcases List.mem_cons.mp (hperm.mem_iff.mpr hy) with hz | hz
        · exact le_of_eq hz.symm
        · exact List.rel_of_sorted_cons hsorted y hz
      · rintro ⟨hx, hmin⟩
        have hzc : z ∈ cands := hperm.mem_iff.mp (List.mem_cons_self z zs)
        have hxz : x ≤ z := hmin z hzc
        have hzx : z ≤ x := by
          rcases List.mem_cons.mp (hperm.mem_iff.mpr hx) with hz | hz
          · exact le_of_eq hz.symm
          · exact List.rel_of_sorted_cons hsorted x hz
        exact (le_antisymm hzx hxz)

theorem pickSorted_perm (c1 c2 : List (List Char)) (h : c1.Perm c2) :
    pickSorted c1 = pickSorted c2 := by
  cases hx : pickSorted c1 with
  | none =>
    rw [pickSorted_eq_none_iff] at hx
    rw [Eq.comm, pickSorted_eq_none_iff]
    subst hx
    exact h.symm.eq_nil
  | some x =>
    rw [pickSorted_eq_some_iff] at hx
    rw [Eq.comm, pickSorted_eq_some_iff]
    exact ⟨h.mem_iff.mp hx.1, fun y hy => hx.2 y (h.mem_iff.mpr hy)⟩

theorem joinPath_inj (d n m : List Char) (h : joinPath d n = joinPath d m) : n = m := by
  unfold joinPath at h
  exact (List.cons.injEq .. ▸ List.append_cancel_left h).2

theorem containsSub_nil_pat (s : List Char) : containsSub s [] = true := by
  cases s with
  | nil => rfl
  | cons c rest => simp [containsSub, List.isPrefixOf]

theorem containsSub_append_mid (a n b : List Char) :
    containsSub ((a ++ n) ++ b) n = true := by
  induction a with
  | nil =>
    rw [List.nil_append]
    cases n with
    | nil => exact containsSub_nil_pat b
    | cons c m =>
      rw [List.cons_append]
      unfold containsSub
      rw [Bool.or_eq_true]
      exact Or.inl (List.isPrefixOf_iff_prefix.mpr (by
        rw [← List.cons_append]
        exact List.prefix_append (c :: m) b))
  | cons c a ih =>
    rw [List.cons_append, List.cons_append]
    unfold containsSub
    rw [Bool.or_eq_true]
    exact Or.inr ih

/-- C8: when several eligible files qualify for the same slot, the
locator returns the lexicographically smallest full path for that slot,
and the whole result is invariant under reordering of the directory
listing. -/
theorem locator_tiebreak_deterministic (path : List Char) (l1 l2 : List (List Char))
    (h : l1.Perm l2) :
    findPatientABFiles path l1 = findPatientABFiles path l2 ∧
    (∀ x, (findPatientABFiles path l1).1 = some x →
      x ∈ (abCandidates path l1).1 ∧ ∀ y ∈ (abCandidates path l1).1, x ≤ y) ∧
    (∀ x, (findPatientABFiles path l1).2 = some x →
      x ∈ (abCandidates path l1).2 ∧ ∀ y ∈ (abCandidates path l1).2, x ≤ y) := by
  refine ⟨?_, ?_, ?_⟩
  · have hA : ((abCandidates path l1).1).Perm ((abCandidates path l2).1) := by
      rw [abCandidates_eq_filter, abCandidates_eq_filter]
      exact (h.filter eligNameA).map (joinPath path)
    have hB : ((abCandidates path l1).2).Perm ((abCandidates path l2).2) := by
      rw [abCandidates_eq_filter, abCandidates_eq_filter]
      exact (h.filter eligNameB).map (joinPath path)
    simp only [findPatientABFiles]
    rw [pickSorted_perm _ _ hA, pickSorted_perm _ _ hB]
  · intro x hx
    simp only [findPatientABFiles] at hx
    exact (pickSorted_eq_some_iff _ x).mp hx
  · intro x hx
    simp only [findPatientABFiles] at hx
    exact (pickSorted_eq_some_iff _ x).mp hx

theorem locator_tiebreak_witness :
    findPatientABFiles (("d").data) [("z_A.xlsx").data, ("b_A.xlsx").data]
        = findPatientABFiles (("d").data) [("b_A.xlsx").data, ("z_A.xlsx").data] ∧
    (∀ x, (findPatientABFiles (("d").data) [("z_A.xlsx").data, ("b_A.xlsx").data]).1 = some x →
      x ∈ (abCandidates (("d").data) [("z_A.xlsx").data, ("b_A.xlsx").data]).1 ∧
      ∀ y ∈ (abCandidates (("d").data) [("z_A.xlsx").data, ("b_A.xlsx").data]).1, x ≤ y) ∧
    (∀ x, (findPatientABFiles (("d").data) [("z_A.xlsx").data, ("b_A.xlsx").data]).2 = some x →
      x ∈ (abCandidates (("d").data) [("z_A.xlsx").data, ("b_A.xlsx").data]).2 ∧
      ∀ y ∈ (abCandidates (("d").data) [("z_A.xlsx").data, ("b_A.xlsx").data]).2, x ≤ y) :=
  locator_tiebreak_deterministic (("d").data)
    [("z_A.xlsx").data, ("b_A.xlsx").data] [("b_A.xlsx").data, ("z_A.xlsx").data] (by decide)

/-- C9: an entry is eligible exactly when its name ends with the
recognised spreadsheet extension; an eligible entry is a Time-A
candidate when its upper-cased name contains the A marker, otherwise a
Time-B candidate when it contains the B marker (mutually exclusive
branches), and entries matching neither are ignored. -/
theorem locator_classification (path : List Char) (l : List (List Char)) :
    abCandidates path l
      = ((l.filter eligNameA).map (joinPath path),
         (l.filter eligNameB).map (joinPath path)) :=
  abCandidates_eq_filter path l

/-- C10: an entry whose name does not end in the lowercase extension
".xlsx" (for instance one ending in ".XLSX") is ineligible and is
returned in neither slot, even though the marker matching itself is
case-insensitive. -/
theorem locator_ext_case_sensitive (path : List Char) (l : List (List Char))
    (name : List Char) (h : endsWith name xlsxExt = false) :
    (findPatientABFiles path l).1 ≠ some (joinPath path name) ∧
    (findPatientABFiles path l).2 ≠ some (joinPath path name) := by
  constructor
  · intro hx
    simp only [findPatientABFiles] at hx
    have hmem := ((pickSorted_eq_some_iff _ _).mp hx).1
    rw [abCandidates_eq_filter] at hmem
    rcases List.mem_map.mp hmem with ⟨n1, hn1, heq⟩
    rcases List.mem_filter.mp hn1 with ⟨-, helig⟩
    rw [joinPath_inj path n1 name heq] at helig
    unfold eligNameA at helig
    rw [Bool.and_eq_true] at helig
    rw [helig.1] at h
    exact Bool.true_eq_false ▸ h
  · intro hx
    simp only [findPatientABFiles] at hx
    have hmem := ((pickSorted_eq_some_iff _ _).mp hx).1
    rw [abCandidates_eq_filter] at hmem
    rcases List.mem_map.mp hmem with ⟨n1, hn1, heq⟩
    rcases List.mem_filter.mp hn1 with ⟨-, helig⟩
    rw [joinPath_inj path n1 name heq] at helig
    unfold eligNameB at helig
    rw [Bool.and_eq_true, Bool.and_eq_true] at helig
    rw [helig.1.1] at h
    exact Bool.true_eq_false ▸ h

theorem locator_ext_case_sensitive_witness :
    endsWith (("P1_A.XLSX").data) xlsxExt = false ∧
    ((findPatientABFiles (("d").data) [("P1_A.XLSX").data]).1
        ≠ some (joinPath (("d").data) (("P1_A.XLSX").data)) ∧
     (findPatientABFiles (("d").data) [("P1_A.XLSX").data]).2
        ≠ some (joinPath (("d").data) (("P1_A.XLSX").data))) :=
  ⟨by decide,
   locator_ext_case_sensitive (("d").data) [("P1_A.XLSX").data] (("P1_A.XLSX").data) (by decide)⟩

theorem tagAtHead_iff (s : List Char) :
    tagAtHead s = true
      ↔ ∃ mid rest, s = 's' :: 'u' :: 'v' :: '2' :: mid :: '5' :: rest ∧ mid ≠ '\n' := by
  constructor
  · intro h
    rw [tagAtHead.eq_def] at h
    split at h
    · exact ⟨_, _, rfl, bne_iff_ne.mp h⟩
    · exact absurd h (by simp)
  · rintro ⟨mid, rest, rfl, hne⟩
    exact bne_iff_ne.mpr hne

theorem tagSearch_iff (s : List Char) :
    tagSearch s = true
      ↔ ∃ pre mid post,
          s = pre ++ 's' :: 'u' :: 'v' :: '2' :: mid :: '5' :: post ∧ mid ≠ '\n' := by
  induction s with
  | nil =>
    simp only [tagSearch]
    constructor
    · intro h
      exact absurd h (by simp)
    · rintro ⟨pre, mid, post, heq, -⟩
      exact absurd heq.symm (List.append_ne_nil_of_right_ne_nil pre (by simp))
  | cons c rest ih =>
    unfold tagSearch
    rw [Bool.or_eq_true, tagAtHead_iff, ih]
    constructor
    · rintro (⟨mid, r2, heq, hne⟩ | ⟨pre, mid, post, heq, hne⟩)
      · exact ⟨[], mid, r2, by rw [List.nil_append, heq], hne⟩
      · exact ⟨c :: pre, mid, post, by rw [List.cons_append, heq], hne⟩
    · rintro ⟨pre, mid, post, heq, hne⟩
      cases pre with
      | nil =>
        rw [List.nil_append] at heq
        exact Or.inl ⟨mid, post, heq, hne⟩
      | cons d pre2 =>
        rw [List.cons_append] at heq
        exact Or.inr ⟨pre2, mid, post, (List.cons.injEq .. ▸ heq).2, hne⟩

/-- C4 counterexample: the label text "suv2x5" is selected by the
code's mask (`str.contains` treats the tag as a regex, so the dot is a
wildcard) although it does not contain the literal tag "suv2.5" as a
substring. -/
theorem tag_match_not_literal :
    segMatchCell (Cell.text (("suv2x5").data)) = true ∧
    containsSub (("suv2x5").data) suvTag = false := by
  exact ⟨by decide, by decide⟩

/-- C4 (amended): a row is selected as a candidate exactly when the
text coercion of its label contains "suv2" followed by any single
character other than a newline followed by "5" (the tag interpreted as
a regular expression with Python's default flags: the dot is a
wildcard that does not match a newline); matching is total, and a
missing label — coerced to the text "nan" — never matches. -/
theorem tag_match_regex (c : Cell) :
    (segMatchCell c = true ↔
      ∃ pre mid post,
        cellToStr c = pre ++ 's' :: 'u' :: 'v' :: '2' :: mid :: '5' :: post ∧
        mid ≠ '\n') ∧
    segMatchCell Cell.na = false :=
  ⟨tagSearch_iff (cellToStr c), by decide⟩

theorem tag_match_regex_witness :
    (segMatchCell (Cell.text (("a suv2.5 b").data)) = true ↔
      ∃ pre mid post,
        cellToStr (Cell.text (("a suv2.5 b").data))
          = pre ++ 's' :: 'u' :: 'v' :: '2' :: mid :: '5' :: post ∧
        mid ≠ '\n') ∧
    segMatchCell Cell.na = false :=
  tag_match_regex (Cell.text (("a suv2.5 b").data))

theorem find?_first {α : Type} (p : α → Bool) (pre post : List α) (r : α)
    (hpre : ∀ q ∈ pre, p q = false) (hr : p r = true) :
    (pre ++ r :: post).find? p = some r := by
  induction pre with
  | nil => simp [List.find?_cons, hr]
  | cons q pre ih =>
    rw [List.cons_append, List.find?_cons]
    rw [hpre q (List.mem_cons_self q pre)]
    exact ih (fun x hx => hpre x (List.mem_cons_of_mem q hx))

/-- C7: given the label column at position i, the selected row is the
first tag-matching row in the table's own top-to-bottom order (later
matches are irrelevant), and the output is exactly the feature block of
that row: the columns at zero-based offset 23 and beyond. -/
theorem row_selector_first_match (df : MeasTable) (i : Nat)
    (pre post : List (List Cell)) (r : List Cell)
    (_hcol : colIndex df segmentationCol = some i)
    (hrows : df.rows = pre ++ r :: post)
    (hpre : ∀ q ∈ pre, rowMatches i q = false)
    (hr : rowMatches i r = true) :
    (df.rows.find? (rowMatches i)).map (featBlock df)
      = some ((df.columns.drop featureStartCol).zip (r.drop featureStartCol)) := by
  rw [hrows, find?_first (rowMatches i) pre post r hpre hr]
  rfl

theorem row_selector_first_match_witness :
    (tMulti.rows.find? (rowMatches 0)).map (featBlock tMulti)
      = some ((tMulti.columns.drop featureStartCol).zip
          ((Cell.text (("suv2.5").data) :: (List.replicate 22 Cell.na)
            ++ [Cell.num 1, Cell.num 2]).drop featureStartCol)) :=
  row_selector_first_match tMulti 0
    [Cell.text (("other").data) :: (List.replicate 22 Cell.na) ++ [Cell.num 7, Cell.num 8]]
    [Cell.text (("suv2.5 later").data) :: (List.replicate 22 Cell.na) ++ [Cell.num 3, Cell.num 4]]
    (Cell.text (("suv2.5").data) :: (List.replicate 22 Cell.na) ++ [Cell.num 1, Cell.num 2])
    (by decide) (by decide) (by decide) (by decide)

theorem tryExtract_some_iff (dfA dfB : MeasTable) :
    (∃ d a b, tryExtract dfA dfB = some (d, a, b)) ↔ extractConds dfA dfB := by
  unfold tryExtract
  cases hA : colIndex dfA segmentationCol with
  | none => simp [extractConds, hA]
  | some iA =>
    cases hB : colIndex dfB segmentationCol with
    | none => simp [extractConds, hB]
    | some iB =>
      by_cases hAny : dfA.rows.any (rowMatches iA) = true
      · by_cases hBny : dfB.rows.any (rowMatches iB) = true
        · cases hfa : dfA.rows.find? (rowMatches iA) with
          | none =>
            rcases List.any_eq_true.mp hAny with ⟨x, hx, hpx⟩
            exact absurd hpx (by rw [List.find?_eq_none] at hfa; simp [hfa x hx])
          | some rA =>
            cases hfb : dfB.rows.find? (rowMatches iB) with
            | none =>
              rcases List.any_eq_true.mp hBny with ⟨x, hx, hpx⟩
              exact absurd hpx (by rw [List.find?_eq_none] at hfb; simp [hfb x hx])
            | some rB =>
              simp only [hAny, hBny, hfa, hfb, Bool.not_true, Bool.or_self,
                Bool.false_eq_true, if_false]
              constructor
              · intro h1
                exact ⟨⟨iA, hA, hAny⟩, ⟨iB, hB, hBny⟩⟩
              · intro h1
                exact ⟨_, _, _, rfl⟩
        · constructor
          · rintro ⟨d, a, b, hsome⟩
            have hB0 : dfB.rows.any (rowMatches iB) = false := by
              revert hBny
              cases dfB.rows.any (rowMatches iB) <;> simp
            simp [hB0] at hsome
          · rintro ⟨-, ⟨iB2, hB2, hBny2⟩⟩
            rw [hB] at hB2
            obtain rfl : iB = iB2 := by injection hB2
            exact absurd hBny2 hBny
      · constructor
        · rintro ⟨d, a, b, hsome⟩
          have hA0 : dfA.rows.any (rowMatches iA) = false := by
            revert hAny
            cases dfA.rows.any (rowMatches iA) <;> simp
          simp [hA0] at hsome
        · rintro ⟨⟨iA2, hA2, hAny2⟩, -⟩
          rw [hA] at hA2
          obtain rfl : iA = iA2 := by injection hA2
          exact absurd hAny2 hAny

theorem processOne_contrib (root : List Char) (p : PatientFolder) (ws : List (List Char))
    (c : Contribution) (h : processOne root p = .ok (ws, some c)) :
    ws = [] ∧ c.1 = p.name ∧ extractOk root p := by
  by_cases hd : p.isDir = false
  · have hval : processOne root p = .ok ([], none) := by simp [processOne, hd]
    rw [hval] at h
    simp at h
  · have hd1 : p.isDir = true := by revert hd; cases p.isDir <;> simp
    by_cases hl : p.listingOk = false
    · have hval : processOne root p = .error (.listFault p.name) := by
        simp [processOne, hd1, hl]
      rw [hval] at h
      simp at h
    · have hl1 : p.listingOk = true := by revert hl; cases p.listingOk <;> simp
      rcases hf : findPatientABFiles (joinPath root p.name) p.listing with ⟨fa, fb⟩
      cases fa with
      | none =>
        cases fb with
        | none =>
          have hval : processOne root p = .ok ([], none) := by
            simp [processOne, hd1, hl1, hf]
          rw [hval] at h
          simp at h
        | some pb =>
          have hval : processOne root p = .ok ([], none) := by
            simp [processOne, hd1, hl1, hf]
          rw [hval] at h
          simp at h
      | some pa =>
        cases fb with
        | none =>
          have hval : processOne root p = .ok ([warnMsg p.name], none) := by
            simp [processOne, hd1, hl1, hf]
          rw [hval] at h
          simp at h
        | some pb =>
          cases hra : readFile p pa with
          | err =>
            have hval : processOne root p = .ok ([], none) := by
              simp [processOne, hd1, hl1, hf, hra]
            rw [hval] at h
            simp at h
          | tbl dfA =>
            cases hrb : readFile p pb with
            | err =>
              have hval : processOne root p = .ok ([], none) := by
                simp [processOne, hd1, hl1, hf, hra, hrb]
              rw [hval] at h
              simp at h
            | tbl dfB =>
              cases ht : tryExtract dfA dfB with
              | none =>
                have hval : processOne root p = .ok ([], none) := by
                  simp [processOne, hd1, hl1, hf, hra, hrb, ht]
                rw [hval] at h
                simp at h
              | some dab =>
                obtain ⟨d, a, b⟩ := dab
                have hval : processOne root p = .ok ([], some (p.name, d, a, b)) := by
                  simp [processOne, hd1, hl1, hf, hra, hrb, ht]
                rw [hval] at h
                simp only [Except.ok.injEq, Prod.mk.injEq, Option.some.injEq] at h
                obtain ⟨hws, hc⟩ := h
                refine ⟨hws.symm, by rw [← hc], hd1, hl1, pa, pb, dfA, dfB, hf, hra, hrb, ?_⟩
                exact (tryExtract_some_iff dfA dfB).mp ⟨d, a, b, ht⟩

theorem processOne_of_extractOk (root : List Char) (p : PatientFolder)
    (h : extractOk root p) :
    ∃ d a b, processOne root p = .ok ([], some (p.name, d, a, b)) := by
  obtain ⟨hd, hl, pa, pb, dfA, dfB, hf, hra, hrb, hconds⟩ := h
  obtain ⟨d, a, b, ht⟩ := (tryExtract_some_iff dfA dfB).mpr hconds
  refine ⟨d, a, b, ?_⟩
  simp [processOne, hd, hl, hf, hra, hrb, ht]

theorem dictInsert_keys (m : List (List Char × FeatRec)) (k : List Char) (v : FeatRec) :
    (dictInsert m k v).map (fun e => e.1)
      = if k ∈ m.map (fun e => e.1) then m.map (fun e => e.1)
        else m.map (fun e => e.1) ++ [k] := by
  unfold dictInsert
  by_cases hk : k ∈ m.map (fun e => e.1)
  · rw [if_pos hk]
    have hany : m.any (fun e => e.1 == k) = true := by
      rcases List.mem_map.mp hk with ⟨e, he, heq⟩
      exact List.any_eq_true.mpr ⟨e, he, by simp [heq]⟩
    rw [hany]
    simp only [if_true]
    rw [List.map_map]
    have hfun : ((fun e => e.1) ∘ fun e => if e.1 == k then (k, v) else e)
        = fun (e : List Char × FeatRec) => e.1 := by
      funext e
      by_cases he : e.1 = k
      · simp [Function.comp, he]
      · simp [Function.comp, he]
    rw [hfun]
  · rw [if_neg hk]
    have hany : m.any (fun e => e.1 == k) = false := by
      by_contra hne
      have htrue : m.any (fun e => e.1 == k) = true := by
        revert hne
        cases m.any (fun e => e.1 == k) <;> simp
      rcases List.any_eq_true.mp htrue with ⟨e, he, heq⟩
      exact hk (List.mem_map.mpr ⟨e, he, by simpa using heq⟩)
    rw [hany]
    simp

theorem mem_dictInsert_keys (m : List (List Char × FeatRec)) (k : List Char)
    (v : FeatRec) (n : List Char) :
    n ∈ (dictInsert m k v).map (fun e => e.1)
      ↔ n ∈ m.map (fun e => e.1) ∨ n = k := by
  rw [dictInsert_keys]
  by_cases hk : k ∈ m.map (fun e => e.1)
  · rw [if_pos hk]
    constructor
    · exact Or.inl
    · rintro (h | rfl)
      · exact h
      · exact hk
  · rw [if_neg hk]
    simp

theorem runCohort_mem (root : List Char) (l : List PatientFolder) (acc out : RunOutput)
    (n : List Char) (h : runCohort root l acc = .ok out) :
    n ∈ out.delta.map (fun e => e.1)
      ↔ n ∈ acc.delta.map (fun e => e.1) ∨ ∃ p ∈ l, p.name = n ∧ extractOk root p := by
  induction l generalizing acc with
  | nil =>
    simp only [runCohort, Except.ok.injEq] at h
    subst h
    simp
  | cons p rest ih =>
    simp only [runCohort] at h
    cases hp : processOne root p with
    | error f =>
      rw [hp] at h
      simp at h
    | ok wc =>
      obtain ⟨ws, contrib⟩ := wc
      rw [hp] at h
      rw [ih _ h]
      cases contrib with
      | none =>
        have hdelta : (applyStep acc ws none).delta = acc.delta := rfl
        rw [hdelta]
        constructor
        · rintro (ha | ⟨q, hq, hqn, hqok⟩)
          · exact Or.inl ha
          · exact Or.inr ⟨q, List.mem_cons_of_mem p hq, hqn, hqok⟩
        · rintro (ha | ⟨q, hq, hqn, hqok⟩)
          · exact Or.inl ha
          · rcases List.mem_cons.mp hq with rfl | hq2
            · exfalso
              obtain ⟨d, a, b, hp2⟩ := processOne_of_extractOk root q hqok
              rw [hp] at hp2
              simp at hp2
            · exact Or.inr ⟨q, hq2, hqn, hqok⟩
      | some c =>
        obtain ⟨nm, d, a, b⟩ := c
        obtain ⟨hws, hnm, hok⟩ := processOne_contrib root p ws (nm, d, a, b) hp
        simp only at hnm
        subst hnm
        have hdelta : (applyStep acc ws (some (p.name, d, a, b))).delta
            = dictInsert acc.delta p.name d := rfl
        rw [hdelta, mem_dictInsert_keys]
        constructor
        · rintro ((ha | rfl) | ⟨q, hq, hqn, hqok⟩)
          · exact Or.inl ha
          · exact Or.inr ⟨p, List.mem_cons_self p rest, rfl, hok⟩
          · exact Or.inr ⟨q, List.mem_cons_of_mem p hq, hqn, hqok⟩
        · rintro (ha | ⟨q, hq, hqn, hqok⟩)
          · exact Or.inl (Or.inl ha)
          · rcases List.mem_cons.mp hq with rfl | hq2
            · exact Or.inl (Or.inr hqn.symm)
            · exact Or.inr ⟨q, hq2, hqn, hqok⟩

theorem runCohort_aligned (root : List Char) (l : List PatientFolder)
    (acc out : RunOutput) (h : runCohort root l acc = .ok out)
    (h1 : acc.delta.map (fun e => e.1) = acc.aTab.map (fun e => e.1))
    (h2 : acc.aTab.map (fun e => e.1) = acc.bTab.map (fun e => e.1)) :
    out.delta.map (fun e => e.1) = out.aTab.map (fun e => e.1) ∧
    out.aTab.map (fun e => e.1) = out.bTab.map (fun e => e.1) := by
  induction l generalizing acc with
  | nil =>
    simp only [runCohort, Except.ok.injEq] at h
    subst h
    exact ⟨h1, h2⟩
  | cons p rest ih =>
    simp only [runCohort] at h
    cases hp : processOne root p with
    | error f =>
      rw [hp] at h
      simp at h
    | ok wc =>
      obtain ⟨ws, contrib⟩ := wc
      rw [hp] at h
      cases contrib with
      | none => exact ih _ h h1 h2
      | some c =>
        obtain ⟨nm, d, a, b⟩ := c
        refine ih _ h ?_ ?_
        · show (dictInsert acc.delta nm d).map (fun e => e.1)
            = (dictInsert acc.aTab nm a).map (fun e => e.1)
          rw [dictInsert_keys, dictInsert_keys, h1]
        · show (dictInsert acc.aTab nm a).map (fun e => e.1)
            = (dictInsert acc.bTab nm b).map (fun e => e.1)
          rw [dictInsert_keys, dictInsert_keys, h2]

/-- C1 (amended): a patient identifier is a row key of the Delta table
exactly when some directory entry of that name passes the extraction
checks: the locator resolves both a Time-A and a Time-B file, both
load, and both tables contain the label column and at least one
tag-matching row.  (No requirement that any feature survive numeric
coercion: a patient whose every delta is missing is still keyed, with
an empty record.) -/
theorem delta_key_iff (root : List Char) (entries : List PatientFolder)
    (out : RunOutput) (n : List Char)
    (h : calculate_delta_radiomics root entries = .ok out) :
    n ∈ out.delta.map (fun e => e.1)
      ↔ ∃ p ∈ entries, p.name = n ∧ extractOk root p := by
  unfold calculate_delta_radiomics at h
  rw [runCohort_mem root _ _ out n h]
  have hperm : (sortEntries entries).Perm entries := by
    unfold sortEntries
    exact List.perm_insertionSort _ entries
  constructor
  · rintro (h0 | ⟨p, hp, hpn, hpok⟩)
    · simp at h0
    · exact ⟨p, hperm.mem_iff.mp hp, hpn, hpok⟩
  · rintro ⟨p, hp, hpn, hpok⟩
    exact Or.inr ⟨p, hperm.mem_iff.mpr hp, hpn, hpok⟩

/-- C1 counterexample: patient P003 satisfies every condition of the
claim except the last (no feature survives coercion in both selected
rows: every feature cell is the text "n/a"), yet its identifier is a
row key of the Delta table — with an empty record — contradicting the
claim's "only if at least one feature has a non-missing delta". -/
theorem delta_key_novalue :
    calculate_delta_radiomics fxRoot [p003]
      = .ok ⟨[], [(("P003").data, [])], [(("P003").data, [])], [(("P003").data, [])]⟩ := by
  decide

theorem delta_key_iff_witness :
    (("P003").data
        ∈ (RunOutput.mk [] [(("P003").data, [])] [(("P003").data, [])]
            [(("P003").data, [])]).delta.map (fun e => e.1))
      ↔ ∃ p ∈ [p003], p.name = ("P003").data ∧ extractOk fxRoot p :=
  delta_key_iff fxRoot [p003]
    ⟨[], [(("P003").data, [])], [(("P003").data, [])], [(("P003").data, [])]⟩
    (("P003").data) (by decide)

/-- C5: on any run that returns, the Delta, A and B tables carry
exactly the same row keys, in the same order: a patient appears in one
of the three tables exactly when it appears in all three. -/
theorem tables_key_aligned (root : List Char) (entries : List PatientFolder)
    (out : RunOutput) (h : calculate_delta_radiomics root entries = .ok out) :
    out.delta.map (fun e => e.1) = out.aTab.map (fun e => e.1) ∧
    out.aTab.map (fun e => e.1) = out.bTab.map (fun e => e.1) :=
  runCohort_aligned root (sortEntries entries) ⟨[], [], [], []⟩ out h rfl rfl

theorem tables_key_aligned_witness :
    (RunOutput.mk [] [(("P003").data, [])] [(("P003").data, [])]
        [(("P003").data, [])]).delta.map (fun e => e.1)
      = (RunOutput.mk [] [(("P003").data, [])] [(("P003").data, [])]
          [(("P003").data, [])]).aTab.map (fun e => e.1) ∧
    (RunOutput.mk [] [(("P003").data, [])] [(("P003").data, [])]
        [(("P003").data, [])]).aTab.map (fun e => e.1)
      = (RunOutput.mk [] [(("P003").data, [])] [(("P003").data, [])]
          [(("P003").data, [])]).bTab.map (fun e => e.1) :=
  tables_key_aligned fxRoot [p003]
    ⟨[], [(("P003").data, [])], [(("P003").data, [])], [(("P003").data, [])]⟩ (by decide)

/-- C3: the worked example — Time-A row with FeatA = 1.0 and
FeatB = "n/a", Time-B row with FeatA = 3.0 and FeatB = 5.0 — yields
exactly Delta Record (FeatA, 2.0) with FeatB entirely absent, A-row
(FeatA, 1.0), and B-row (FeatA, 3.0) and (FeatB, 5.0). -/
theorem worked_example_p001 :
    calculate_delta_radiomics fxRoot [p001]
      = .ok ⟨[], [(("P001").data, [(("FeatA").data, 2)])],
             [(("P001").data, [(("FeatA").data, 1)])],
             [(("P001").data, [(("FeatA").data, 3), (("FeatB").data, 5)])]⟩ := by
  with_unfolding_all decide

/-- C2 counterexample: patient P000's directory is unreadable, so
`os.listdir` faults inside `_find_patient_ab_files` — which is called
OUTSIDE the per-patient try block.  The fault escapes the cohort
iteration (the run returns no tables at all), and the perfectly
extractable patient P003 never gets processed, contradicting "the
exception never propagates and every other patient is still
processed". -/
theorem location_fault_propagates :
    calculate_delta_radiomics fxRoot [pBad, p003]
        = .error (.listFault (("P000").data)) ∧
    calculate_delta_radiomics fxRoot [p003]
      = .ok ⟨[], [(("P003").data, [])], [(("P003").data, [])], [(("P003").data, [])]⟩ := by
  exact ⟨by decide, by decide⟩

/-- C2 (amended): a fault raised INSIDE the per-patient try block — a
failing load of the located Time-A file or of the located Time-B file,
the operations the try block guards — is contained: the cohort
iteration behaves exactly as if that patient were absent, so every
other patient is still processed; only a fault in the file-location
step, which runs outside the try block, propagates. -/
theorem try_block_fault_contained (root : List Char) (pre post : List PatientFolder)
    (p : PatientFolder) (acc : RunOutput) (pa pb : List Char)
    (hd : p.isDir = true) (hl : p.listingOk = true)
    (hf : findPatientABFiles (joinPath root p.name) p.listing = (some pa, some pb))
    (he : readFile p pa = .err ∨ readFile p pb = .err) :
    runCohort root (pre ++ p :: post) acc = runCohort root (pre ++ post) acc := by
  have hstep : processOne root p = .ok ([], none) := by
    rcases he with hea | heb
    · simp [processOne, hd, hl, hf, hea]
    · cases hra : readFile p pa with
      | err => simp [processOne, hd, hl, hf, hra]
      | tbl dfA => simp [processOne, hd, hl, hf, hra, heb]
  induction pre generalizing acc with
  | nil =>
    rw [List.nil_append, List.nil_append]
    simp only [runCohort, hstep]
    have hacc : applyStep acc [] none = acc := by
      simp [applyStep]
    rw [hacc]
  | cons q pre ih =>
    rw [List.cons_append, List.cons_append]
    simp only [runCohort]
    cases hq : processOne root q with
    | error f => rfl
    | ok wc =>
      obtain ⟨ws, contrib⟩ := wc
      exact ih _

theorem try_block_fault_contained_witness :
    runCohort fxRoot ([] ++ pCorruptB :: [p003]) ⟨[], [], [], []⟩
      = runCohort fxRoot ([] ++ [p003]) ⟨[], [], [], []⟩ :=
  try_block_fault_contained fxRoot [] [p003] pCorruptB ⟨[], [], [], []⟩
    (("data/P00D/P00D_A.xlsx").data) (("data/P00D/P00D_B.xlsx").data)
    rfl rfl (by decide) (by decide)

/-- C6: with the patient folder readable, the three missing-file rules
hold in their stated priority, before any file content is consulted
(the folder's load outcomes are arbitrary): A present and B absent
emits exactly one warning, whose text names the patient directory, and
contributes nothing; B present and A absent skips silently; neither
present skips silently.  Moreover, at cohort level, an A-without-B
patient (unique by name, as directory names are) is excluded from all
three tables. -/
theorem skip_policy_cases (root : List Char) (p : PatientFolder) (pa pb : List Char)
    (hd : p.isDir = true) (hl : p.listingOk = true) :
    (findPatientABFiles (joinPath root p.name) p.listing = (some pa, none) →
      processOne root p = .ok ([warnMsg p.name], none) ∧
      containsSub (warnMsg p.name) p.name = true) ∧
    (findPatientABFiles (joinPath root p.name) p.listing = (none, some pb) →
      processOne root p = .ok ([], none)) ∧
    (findPatientABFiles (joinPath root p.name) p.listing = (none, none) →
      processOne root p = .ok ([], none)) ∧
    (∀ entries out,
      calculate_delta_radiomics root entries = .ok out →
      p ∈ entries →
      (∀ q ∈ entries, q.name = p.name → q = p) →
      findPatientABFiles (joinPath root p.name) p.listing = (some pa, none) →
      p.name ∉ out.delta.map (fun e => e.1) ∧
      p.name ∉ out.aTab.map (fun e => e.1) ∧
      p.name ∉ out.bTab.map (fun e => e.1)) := by
  refine ⟨fun hf => ⟨?_, ?_⟩, fun hf => ?_, fun hf => ?_, ?_⟩
  · simp [processOne, hd, hl, hf]
  · unfold warnMsg
    exact containsSub_append_mid (("Patient ").data) p.name
      ((" has Time A file but missing Time B file. Skipping.").data)
  · simp [processOne, hd, hl, hf]
  · simp [processOne, hd, hl, hf]
  · intro entries out hrun hmem huniq hf
    unfold calculate_delta_radiomics at hrun
    have halign := runCohort_aligned root (sortEntries entries) ⟨[], [], [], []⟩ out hrun
      rfl rfl
    have hiff := runCohort_mem root (sortEntries entries) ⟨[], [], [], []⟩ out p.name hrun
    have hperm : (sortEntries entries).Perm entries := by
      unfold sortEntries
      exact List.perm_insertionSort _ entries
    have hnot : p.name ∉ out.delta.map (fun e => e.1) := by
      intro hin
      rw [hiff] at hin
      rcases hin with h0 | ⟨q, hq, hqn, hqok⟩
      · simp at h0
      · have hq1 : q ∈ entries := hperm.mem_iff.mp hq
        have hq2 : q = p := huniq q hq1 hqn
        subst hq2
        obtain ⟨-, -, pa2, pb2, dfA, dfB, hf2, -⟩ := hqok
        rw [hf] at hf2
        simp at hf2
    refine ⟨hnot, ?_, ?_⟩
    · rw [← halign.1]
      exact hnot
    · rw [← halign.2, ← halign.1]
      exact hnot

theorem skip_policy_cases_witness :
    processOne fxRoot p002 = .ok ([warnMsg (("P002").data)], none) ∧
    containsSub (warnMsg (("P002").data)) (("P002").data) = true :=
  (skip_policy_cases fxRoot p002 (("data/P002/P002_A.xlsx").data) [] rfl rfl).1 (by decide)

theorem locator_classification_witness :
    abCandidates (("d").data) [("P1_A.xlsx").data, ("P1_B.xlsx").data, ("note.txt").data]
      = (([("P1_A.xlsx").data, ("P1_B.xlsx").data, ("note.txt").data].filter eligNameA).map
          (joinPath (("d").data)),
         ([("P1_A.xlsx").data, ("P1_B.xlsx").data, ("note.txt").data].filter eligNameB).map
          (joinPath (("d").data))) :=
  locator_classification (("d").data)
    [("P1_A.xlsx").data, ("P1_B.xlsx").data, ("note.txt").data]
